import Mathlib

/-
Verification of the decoding engine of the RNN_Seq2Seq repository
(src/module/generate.py and src/module/test.py).

The encoder/decoder model and the tokenizer are external collaborators:
a per-item decoder step is modelled as a function `Nat → σ → List ℚ × σ`
(previous token id and opaque recurrent state in, a logits row and the new
state out), and the batched decoder used by `Tester.predict` as
`List Nat → σ → List (List ℚ) × σ`.  Token ids are `Nat`, logits are `ℚ`,
and the floating-point scores of the beam search are idealised as `ℝ`.
-/

set_option maxRecDepth 4000
set_option maxHeartbeats 1000000

/-- Index of the first maximum of a logits row, accumulator form.
`bi`/`bv` are the best index and value so far, `i` the index of the head
of the remaining list.  Models `torch.argmax` (first occurrence wins). -/
def argmaxGo (bi : Nat) (bv : ℚ) (i : Nat) : List ℚ → Nat
  | [] => bi
  | v :: vs => if bv < v then argmaxGo i v (i + 1) vs else argmaxGo bi bv (i + 1) vs

/-- `out.argmax(-1)` on a logits row: index of the first maximal entry
(`torch.argmax`; the decoder collaborator never produces an empty row,
the `[]` case is a don't-care). -/
def argmaxIdx : List ℚ → Nat
  | [] => 0
  | v :: vs => argmaxGo 0 v 1 vs

/-- Insert a `(value, index)` pair into a list sorted by descending value,
after any entries with an equal value (so earlier indices stay first). -/
def insertTop (p : ℚ × Nat) : List (ℚ × Nat) → List (ℚ × Nat)
  | [] => [p]
  | q :: qs => if q.1 < p.1 then p :: q :: qs else q :: insertTop p qs

/-- `torch.topk(out, k)`: the `k` largest logits with their indices, in
descending value order, ties resolved toward the lower index. -/
def topk (k : Nat) (l : List ℚ) : List (ℚ × Nat) :=
  ((l.enum.map (fun p => (p.2, p.1))).foldl (fun acc p => insertTop p acc) []).take k

/-- `itertools.groupby`: maximal chunks of consecutive equal elements,
in order.  (Python yields `(key, group)` pairs; only the groups are
consumed by `Generator.get_score`.) -/
def pyGroupby {α : Type} [DecidableEq α] : List α → List (List α)
  | [] => []
  | a :: l =>
    match pyGroupby l with
    | (b :: g) :: gs => if a = b then (a :: b :: g) :: gs else [a] :: (b :: g) :: gs
    | _ => [[a]]

/-- The `repeat` computation of `Generator.get_score` as the program
actually performs it.  `node.pred` is a `(1, L)` tensor (created as
`torch.LongTensor(1, 1)` and grown by `torch.cat(..., dim=-1)`), so
`node.pred.tolist()` is the nested list `[[t0, ..., tL]]`; `groupby`
therefore runs over the one-element outer list, and the generator's
filter `token != self.pad_id` compares the inner list (the `token`) with
an int, which is always `True` in Python — rendered here as the
constant-true predicate.  Consequently the value is `1` for every
single-row `pred`. -/
def pyRepeat (_pad : Nat) (rows : List (List Nat)) : Nat :=
  ((pyGroupby rows).map (fun g => g.countP (fun _row => true))).foldr max 0

/-- The `repeat` computation the spec (and the source's own comment
`#find max number of consecutively repeated tokens`) describe:
`max([sum(1 for token in group if token != pad_id) for _, group in
groupby(tokens)])` over the flat token list, i.e. the greatest run of
consecutive identical non-pad tokens.  The program never computes this
(see `pyRepeat`); it is kept as the spec-side reference computation.
Python's `max` over the (non-empty) group list is rendered as a fold
with neutral element `0`. -/
def pyMaxRun (pad : Nat) (l : List Nat) : Nat :=
  ((pyGroupby l).map (fun g => g.countP (fun t => t != pad))).foldr max 0

/-- `u` occurs as a contiguous slice of `l`. -/
def occursIn (u l : List Nat) : Prop := ∃ s r, s ++ u ++ r = l

/-- The spec-side notion for claim C1: `l` contains a run of `k`
consecutive identical non-pad tokens (`k = 0` is the trivial run). -/
def hasRun (pad : Nat) (l : List Nat) (k : Nat) : Prop :=
  k = 0 ∨ ∃ t, t ≠ pad ∧ occursIn (List.replicate k t) l

/-- The `Node` namedtuple of `Generator`:
`Node(prev_node, pred, log_prob, hiddens, length)`.  `pred` is the token
prefix generated so far (bos token included), `hiddens` the opaque decoder
state owned by the node. -/
inductive BNode (σ : Type) : Type where
  | mk (prev : Option (BNode σ)) (pred : List Nat) (logProb : ℝ) (hiddens : σ) (length : Nat)

def BNode.prev {σ : Type} : BNode σ → Option (BNode σ)
  | .mk p _ _ _ _ => p

def BNode.pred {σ : Type} : BNode σ → List Nat
  | .mk _ p _ _ _ => p

def BNode.logProb {σ : Type} : BNode σ → ℝ
  | .mk _ _ lp _ _ => lp

def BNode.hiddens {σ : Type} : BNode σ → σ
  | .mk _ _ _ h _ => h

def BNode.length {σ : Type} : BNode σ → Nat
  | .mk _ _ _ _ n => n

/-- The per-item beam state: the priority queue `nodes` (the frontier,
kept as the bare entry list; pops take the minimum score) and the
`end_nodes` list of finished hypotheses. -/
structure BeamState (σ : Type) where
  frontier : List (ℝ × BNode σ)
  endNodes : List (ℝ × BNode σ)

/-- The root `Node` built by `Generator.init_nodes`: no predecessor, the
bos token as `pred`, zero log-prob, the encoder context as state,
length `0`. -/
def Generator.startNode {σ : Type} (bos : Nat) (h : σ) : BNode σ :=
  BNode.mk none [bos] 0 h 0

/-- `Generator.init_nodes`: seeds the frontier with `beam_size` copies of
the start node, each keyed by score `0`, and an empty finished list. -/
def Generator.init_nodes {σ : Type} (beamSize bos : Nat) (h : σ) : BeamState σ :=
  ⟨List.replicate beamSize ((0 : ℝ), Generator.startNode bos h), []⟩

noncomputable section

/-- `-F.log_softmax(logits, dim=-1)` applied to the row of top-k logits:
`cost i = -(logit i - log (Σ exp logit j))`. -/
def negLogSoftmax (vs : List ℚ) : List ℝ :=
  vs.map (fun x => -(((x : ℝ)) - Real.log ((vs.map (fun y => Real.exp ((y : ℝ)))).sum)))

/-- `Generator.get_score(node, max_repeat=5, min_length=5, alpha=1.2)`:
a zero `log_prob` (the root) is returned unchanged; otherwise the
accumulated log-prob is length-normalised and multiplied by the repeat
penalty.  The `repeat` value is computed by `groupby(node.pred.tolist())`
— and since `node.pred` is a `(1, L)` tensor, `tolist()` yields the
nested list `[node.pred]`, so `repeat` is always `1` (see `pyRepeat`)
and the `0.5` branch is dead code in the program. -/
def Generator.get_score {σ : Type} (pad maxRepeat minLength : Nat) (alpha : ℝ)
    (node : BNode σ) : ℝ :=
  if node.logProb = 0 then node.logProb
  else
    let rpt := pyRepeat pad [node.pred]
    let repeatPenalty : ℝ := if maxRepeat < rpt then 0.5 else 1
    let lenPenalty : ℝ := (((node.length : ℝ) + (minLength : ℝ)) / (1 + (minLength : ℝ))) ^ alpha
    node.logProb / lenPenalty * repeatPenalty

/-- One `nodes.get()` on the frontier: removes the entry with the least
score (the earliest such entry on ties); `none` on an empty queue, where
the Python `PriorityQueue.get()` would block forever. -/
def popMin {σ : Type} : List (ℝ × BNode σ) → Option ((ℝ × BNode σ) × List (ℝ × BNode σ))
  | [] => none
  | x :: rest =>
    some (match popMin rest with
      | none => (x, [])
      | some (m, r) => if m.1 < x.1 then (m, x :: r) else (x, rest))

/-- The drain loop of `Generator.beam_search`: pop entries until exactly
`beam_size` have been collected.  When the frontier holds fewer entries
the source's `nodes.get()` blocks indefinitely, modelled as `none`. -/
def popBatch {σ : Type} : Nat → List (ℝ × BNode σ) →
    Option (List (ℝ × BNode σ) × List (ℝ × BNode σ))
  | 0, l => some ([], l)
  | b + 1, l =>
    (popMin l).bind fun er =>
      (popBatch b er.2).map fun esr => (er.1 :: esr.1, esr.2)

/-- Stable insertion for descending-score order (new entries go after
existing entries of equal score, as in Python's stable `sorted`). -/
def insertDesc {σ : Type} (p : ℝ × BNode σ) : List (ℝ × BNode σ) → List (ℝ × BNode σ)
  | [] => [p]
  | q :: qs => if q.1 < p.1 then p :: q :: qs else q :: insertDesc p qs

/-- `sorted(end_nodes, key=operator.itemgetter(0), reverse=True)`. -/
def sortDesc {σ : Type} (l : List (ℝ × BNode σ)) : List (ℝ × BNode σ) :=
  l.foldl (fun acc p => insertDesc p acc) []

/-- The expansion of one popped non-eos node in `Generator.beam_search`:
one decoder step from the node's last token and state, `topk` over the
logits, costs `-log_softmax` of the top-k logits, and one child per
candidate pushed onto the frontier (scored by `get_score`). -/
def Generator.pushChildren {σ : Type} (dec : Nat → σ → List ℚ × σ) (beamSize pad : Nat)
    (n : BNode σ) (st : BeamState σ) : BeamState σ :=
  let r := dec (n.pred.getLastD 0) n.hiddens
  let tops := topk beamSize r.1
  let costs := negLogSoftmax (tops.map (fun p => p.1))
  let children := (tops.zip costs).map (fun pc =>
    let child : BNode σ :=
      BNode.mk (some n) (n.pred ++ [pc.1.2]) (n.logProb + pc.2) r.2 (n.length + 1)
    (Generator.get_score pad 5 5 1.2 child, child))
  ⟨st.frontier ++ children, st.endNodes⟩

/-- The inner `for curr_score, curr_node in curr_nodes` loop of
`Generator.beam_search`: finished nodes (last token = eos) move to
`end_nodes` via `continue`; other nodes are expanded, and at `t == 0`
the `if not t: break` stops after the first expansion. -/
def Generator.expandLoop {σ : Type} (dec : Nat → σ → List ℚ × σ) (beamSize pad eos t : Nat) :
    List (ℝ × BNode σ) → BeamState σ → BeamState σ
  | [], st => st
  | sn :: rest, st =>
    if sn.2.pred.getLastD 0 = eos then
      Generator.expandLoop dec beamSize pad eos t rest
        ⟨st.frontier, st.endNodes ++ [sn]⟩
    else
      let st' := Generator.pushChildren dec beamSize pad sn.2 st
      if t = 0 then st' else Generator.expandLoop dec beamSize pad eos t rest st'

/-- One step `t` of the beam search: pop exactly `beam_size` entries from
the frontier (`none` when it underflows and the pop blocks), then run the
expansion loop on them. -/
def Generator.beamStep {σ : Type} (dec : Nat → σ → List ℚ × σ) (beamSize pad eos t : Nat)
    (st : BeamState σ) : Option (BeamState σ) :=
  (popBatch beamSize st.frontier).map fun pr =>
    Generator.expandLoop dec beamSize pad eos t pr.1 ⟨pr.2, st.endNodes⟩

/-- The `for t in range(self.max_len)` loop of `Generator.beam_search`,
with `fuel` steps left and current step index `t`. -/
def Generator.beamLoop {σ : Type} (dec : Nat → σ → List ℚ × σ) (beamSize pad eos : Nat) :
    Nat → Nat → BeamState σ → Option (BeamState σ)
  | 0, _, st => some st
  | fuel + 1, t, st =>
    (Generator.beamStep dec beamSize pad eos t st).bind
      (Generator.beamLoop dec beamSize pad eos fuel (t + 1))

/-- The selection after the step loop of `Generator.beam_search`: if
`end_nodes` is empty, pop the best remaining frontier entry (`none` when
the frontier is also empty and `nodes.get()` blocks); otherwise take the
head of `end_nodes` sorted by descending score. -/
def Generator.beamFinish {σ : Type} (st : BeamState σ) : Option (BNode σ) :=
  match st.endNodes with
  | [] => (popMin st.frontier).map (fun p => p.1.2)
  | e :: _ => some ((sortDesc st.endNodes).headD e).2

/-- The per-item beam search from `init_nodes` onward: run `max_len`
steps, select, and return the winner's `pred` with the start token
dropped (`top_node.pred.squeeze()[1:]`).  This is the execution the
step-loop and finalization code describes; the program itself never
reaches it, because `beam_search` dies in the `self.get_nodes(hiddens)`
lookup before the loop (see `Generator.beamSearchItem`). -/
def Generator.beamSearchAfterInit {σ : Type} (maxLen beamSize bos eos pad : Nat)
    (dec : Nat → σ → List ℚ × σ) (h : σ) : Option (List Nat) :=
  (Generator.beamLoop dec beamSize pad eos maxLen 0 (Generator.init_nodes beamSize bos h)).bind
    fun st => (Generator.beamFinish st).map fun n => n.pred.drop 1

end

/-- The `for t in range(1, self.max_len)` loop of
`Generator.greedy_search`: one decoder step, argmax token written into the
buffer at position `t`, early exit when the token is the eos id. -/
def Generator.greedyGo {σ : Type} (dec : Nat → σ → List ℚ × σ) (eos : Nat) :
    Nat → Nat → Nat → σ → List Nat → List Nat
  | 0, _, _, _, pred => pred
  | fuel + 1, t, inp, h, pred =>
    let r := dec inp h
    let tok := argmaxIdx r.1
    let pred' := pred.set t tok
    if tok = eos then pred' else Generator.greedyGo dec eos fuel (t + 1) tok r.2 pred'

/-- `Generator.greedy_search` on one batch item: a pad-filled buffer of
capacity `max_len`, decoding from the bos token, output = buffer
positions `[1, max_len)` (`pred[1:].tolist()`). -/
def Generator.greedySearchItem {σ : Type} (maxLen bos eos pad : Nat)
    (dec : Nat → σ → List ℚ × σ) (h : σ) : List Nat :=
  (Generator.greedyGo dec eos (maxLen - 1) 1 bos h (List.replicate maxLen pad)).drop 1

/-- `Generator.greedy_search` over a batch of per-item encoder slices. -/
def Generator.greedy_search {σ : Type} (maxLen bos eos pad : Nat)
    (dec : Nat → σ → List ℚ × σ) (hs : List σ) : List (List Nat) :=
  hs.map (Generator.greedySearchItem maxLen bos eos pad dec)

/-- A deterministic decoder collaborator over the vocabulary
`{bos=0, eos=1, pad=2, a=3, b=4}` (state = step counter): argmax token
`a` at the first step, `eos` at every later step. -/
def decA : Nat → Nat → List ℚ × Nat :=
  fun _ s => (if s = 0 then [0, 0, 0, 1, 0] else [0, 1, 0, 0, 0], s + 1)

/-- A decoder collaborator whose argmax is the pad id at the first step
and eos at the second. -/
def decPadEos : Nat → Nat → List ℚ × Nat :=
  fun _ s => (if s = 0 then [0, 0, 1, 0, 0] else [0, 1, 0, 0, 0], s + 1)

/-- A decoder collaborator over a two-token tail vocabulary that makes
the eos id (= 1) the top logit at every step. -/
def decEos : Nat → Nat → List ℚ × Nat := fun _ s => ([0, 5], s + 1)

/-- The beam state reached from `init_nodes` with beam width 1 under
`decEos` after the two steps of a `max_len = 2` run (ids bos=0, eos=1,
pad=2). -/
noncomputable def c2St : BeamState Nat :=
  (Generator.beamLoop decEos 1 2 1 2 0 (Generator.init_nodes 1 0 (0 : Nat))).getD ⟨[], []⟩

/-- The beam state reached from `init_nodes` with beam width 1 under
`decA` after the steps `t = 0, 1, 2` (ids bos=0, eos=1, pad=2). -/
noncomputable def c5St : BeamState Nat :=
  (Generator.beamLoop decA 1 2 1 3 0 (Generator.init_nodes 1 0 (0 : Nat))).getD ⟨[], []⟩

/-- Python's `str.lower()` (restricted to the ASCII case mapping). -/
def pyLower (s : String) : String := String.mk (s.data.map Char.toLower)

/-- Python runtime errors raised by the code paths modelled below. -/
inductive PyErr : Type where
  | typeError : PyErr
  | nameError : PyErr
  | eofError : PyErr
  | attributeError : PyErr
deriving DecidableEq

/-- The call `self.generate(input_seq)` made by `Generator.inference`.
`Generator.generate` is declared as `generate(self, input_seq,
search_method)`, so the one-argument call raises a `TypeError` (missing
required positional argument) before the body runs; the body itself would
then raise a `NameError` (`input_tensor` is read before assignment in
`self.tokenizer.encode(input_tensor)`) and an `AttributeError`
(`self.search_method` is never set).  The call can therefore never
return a decoded string. -/
def Generator.generateCall (inputSeq : String) : Except PyErr String :=
  Except.error PyErr.typeError

/-- The statement `Node, nodes, end_nodes = self.get_nodes(hiddens)` at
the top of the per-item loop of `Generator.beam_search`.  The class
defines no method `get_nodes` (its initialiser is named `init_nodes`),
so this attribute lookup raises an `AttributeError` on every call,
before the step loop starts. -/
def Generator.getNodesCall {σ : Type} (h : σ) : Except PyErr (BeamState σ) :=
  Except.error PyErr.attributeError

/-- The `while True` loop of `Generator.inference`: read a line, lower it,
stop on the sentinel `"quit"`, otherwise decode the line and print the
result with the fixed label.  The input stream is the list of lines;
the result is the list of printed decode lines paired with `none` for a
normal sentinel exit or `some e` for the Python error `e` that ends the
session (`EOFError` when stdin is exhausted inside `while True`). -/
def Generator.inference : List String → List String × Option PyErr
  | [] => ([], some PyErr.eofError)
  | line :: rest =>
    let s := pyLower line
    if s = "quit" then ([], none)
    else
      match Generator.generateCall s with
      | Except.error e => ([], some e)
      | Except.ok out =>
        let r := Generator.inference rest
        (("Model Out Sequence >> " ++ out) :: r.1, r.2)

/-- `Generator.beam_search` on one batch item, as the program actually
runs it: the first statement of the per-item body is the
`self.get_nodes(hiddens)` lookup, which raises `AttributeError` on every
call; the search from `init_nodes` onward (`beamSearchAfterInit`) is
unreachable dead code. -/
noncomputable def Generator.beamSearchItem {σ : Type} (maxLen beamSize bos eos pad : Nat)
    (dec : Nat → σ → List ℚ × σ) (h : σ) : Except PyErr (Option (List Nat)) :=
  match Generator.getNodesCall (σ := σ) h with
  | Except.error e => Except.error e
  | Except.ok st =>
    Except.ok ((Generator.beamLoop dec beamSize pad eos maxLen 0 st).bind
      fun st' => (Generator.beamFinish st').map fun n => n.pred.drop 1)

/-- `Generator.beam_search` over a batch: items are decoded independently
from their per-item encoder slices (the batching/slicing and the final
`tokenizer.decode` are collaborator work outside the search core). -/
noncomputable def Generator.beam_search {σ : Type} (maxLen beamSize bos eos pad : Nat)
    (dec : Nat → σ → List ℚ × σ) (hs : List σ) : List (Except PyErr (Option (List Nat))) :=
  hs.map (Generator.beamSearchItem maxLen beamSize bos eos pad dec)

/-- Column assignment `pred[:, t] = vals` on a row-major token matrix. -/
def Tester.setCol (t : Nat) (m : List (List Nat)) (vals : List Nat) : List (List Nat) :=
  m.zipWith (fun row v => row.set t v) vals

/-- The `for t in range(1, self.max_len)` loop of `Tester.predict`: one
batched decoder step per iteration, batched argmax, column write at `t`.
The final component counts the decoder invocations (the loop has no
early-exit on eos). -/
def Tester.predictLoop {σ : Type} (decB : List Nat → σ → List (List ℚ) × σ) :
    Nat → Nat → List Nat → σ → List (List Nat) → Nat → List (List Nat) × Nat
  | 0, _, _, _, m, calls => (m, calls)
  | fuel + 1, t, toks, h, m, calls =>
    let r := decB toks h
    let toks' := r.1.map argmaxIdx
    Tester.predictLoop decB fuel (t + 1) toks' r.2 (Tester.setCol t m toks') (calls + 1)

/-- `Tester.predict`: a `(batch_size, max_len)` pad-filled matrix whose
column 0 is set to the bos id, then `max_len - 1` batched decoder steps;
returns the matrix together with the decoder-invocation count. -/
def Tester.predict {σ : Type} (maxLen bos pad : Nat)
    (decB : List Nat → σ → List (List ℚ) × σ) (batchSize : Nat) (h : σ) :
    List (List Nat) × Nat :=
  Tester.predictLoop decB (maxLen - 1) 1 (List.replicate batchSize bos) h
    (Tester.setCol 0 (List.replicate batchSize (List.replicate maxLen pad))
      (List.replicate batchSize bos)) 0

/-- `Tester.evaluate`: a batch whose predictions are all empty strings
scores `0.0` without touching the metric collaborator; otherwise the
metric is invoked on the predictions and the singleton-wrapped references
and its result scaled by 100.  The collaborator `metric` models
`self.metric_module.compute(...)` together with the task-dependent
key lookup (`'bleu'` or `'rouge2'`). -/
def Tester.evaluate (metric : List String → List (List String) → ℝ)
    (pred label : List String) : ℝ :=
  if pred.all (fun s => s == "") then 0
  else metric pred (label.map (fun l => [l])) * 100

/-- A concrete hypothesis node (pad id 2): a run of six copies of token
3 after the bos token, accumulated cost `-2`, length 6 — a node whose
maximum run of consecutive identical non-pad tokens exceeds the default
`max_repeat = 5`. -/
noncomputable def c1Node : BNode Unit := BNode.mk none [0, 3, 3, 3, 3, 3, 3] (-2) () 6

/-- A concrete batched decoder collaborator: every row's logits make
token 1 the argmax, state is trivial. -/
def decBatch : List Nat → Unit → List (List ℚ) × Unit :=
  fun ts _ => (ts.map (fun _ => [0, 1]), ())

/-- Claim C7 (amended): in the C7 scenario the greedy output is `[a, eos]`
padded with the pad id to length `max_len - 1` (the buffer has capacity
`max_len`, but its position 0 is excluded from the output), and its
non-pad prefix is exactly `[3, 1]`. -/
theorem Generator.greedy_scenario :
    Generator.greedySearchItem 512 0 1 2 decA 0 = [3, 1] ++ List.replicate 509 2 ∧
    (Generator.greedySearchItem 512 0 1 2 decA 0).takeWhile (fun t => t != 2) = [3, 1] ∧
    (Generator.greedySearchItem 512 0 1 2 decA 0).length = 512 - 1 :=
  ⟨by decide, by decide, by decide⟩

/-- Claim C7, counterexample to the claim as stated: the output is not
`[a, eos]` padded to length `max_len = 512`; it has `max_len - 1 = 511`
entries, because the start position of the buffer is dropped. -/
theorem Generator.greedy_scenario_cex :
    Generator.greedySearchItem 512 0 1 2 decA 0 ≠ [3, 1] ++ List.replicate 510 2 := by
  decide

/-- Claim C6: `Generator.init_nodes` seeds the frontier with exactly
`beam_size` entries, each the identical root node keyed by score `0`,
with an empty finished list; the root holds the start token, zero
log-prob, zero length, the initial decoder context, and no predecessor. -/
theorem Generator.init_nodes_spec {σ : Type} (beamSize bos : Nat) (h : σ) :
    (Generator.init_nodes beamSize bos h).frontier.length = beamSize ∧
    (∀ e ∈ (Generator.init_nodes beamSize bos h).frontier,
      e = ((0 : ℝ), Generator.startNode bos h)) ∧
    (Generator.init_nodes beamSize bos h).endNodes = [] ∧
    (Generator.startNode bos h).prev = none ∧
    (Generator.startNode bos h).pred = [bos] ∧
    (Generator.startNode bos h).logProb = 0 ∧
    (Generator.startNode bos h).hiddens = h ∧
    (Generator.startNode bos h).length = 0 := by
  refine ⟨?_, ?_, rfl, rfl, rfl, rfl, rfl, rfl⟩
  · simp [Generator.init_nodes]
  · intro e he
    exact List.eq_of_mem_replicate he

/-- Claim C4, failing behaviour: with beam width 1 and the deterministic
decoder of the C7 scenario, the as-written `beam_search` already raises
`AttributeError` on the `get_nodes` lookup; and even past that bug, the
single hypothesis finishes at step `t = 2` and nothing refills the
frontier, so the pop at `t = 3` finds an empty queue and the blocking
`nodes.get()` never returns (`none`).  The greedy search on the same
input returns `[a, eos]` followed by pads, so the two never coincide. -/
theorem Generator.beam_width_one_vs_greedy :
    Generator.beamSearchItem 512 1 0 1 2 decA 0 = Except.error PyErr.attributeError ∧
    Generator.beamSearchAfterInit 512 1 0 1 2 decA 0 = none ∧
    Generator.greedySearchItem 512 0 1 2 decA 0 = [3, 1] ++ List.replicate 509 2 :=
  ⟨rfl, rfl, by decide⟩

/-- Claim C5, failing behaviour: running beam width 1 under `decA`, the
state before step `t = 3` has an empty frontier (fewer entries than the
beam width), the pop batch of that step fails to complete (`none`, the
blocking `nodes.get()`), and therefore the whole `max_len = 512` step
loop never completes instead of failing fast. -/
theorem Generator.beam_frontier_underflow_blocks :
    c5St.frontier.length = 0 ∧
    Generator.beamStep decA 1 2 1 3 c5St = none ∧
    Generator.beamLoop decA 1 2 1 512 0 (Generator.init_nodes 1 0 (0 : Nat)) = none :=
  ⟨rfl, rfl, rfl⟩

/-- `popMin` on a non-empty queue never fails. -/
theorem popMin_eq_none_iff {σ : Type} (l : List (ℝ × BNode σ)) :
    popMin l = none ↔ l = [] := by
  cases l with
  | nil => simp [popMin]
  | cons x rest => simp [popMin]

/-- A successful `popMin` returns a member of the queue whose score is
least among all entries. -/
theorem popMin_spec {σ : Type} :
    ∀ (l : List (ℝ × BNode σ)) e r, popMin l = some (e, r) →
      e ∈ l ∧ ∀ x ∈ l, e.1 ≤ x.1 := by
  intro l
  induction l with
  | nil => intro e r h; simp [popMin] at h
  | cons x rest ih =>
    intro e r h
    cases hm : popMin rest with
    | none =>
      have hrest : rest = [] := (popMin_eq_none_iff rest).1 hm
      subst hrest
      simp [popMin] at h
      obtain ⟨he, _⟩ := h
      subst he
      simp
    | some mr =>
      obtain ⟨m, r'⟩ := mr
      have hmem := ih m r' hm
      simp only [popMin, hm] at h
      by_cases hlt : m.1 < x.1
      · rw [if_pos hlt] at h
        have he' : e = m := by
          cases h
          rfl
        subst he'
        refine ⟨List.mem_cons_of_mem _ hmem.1, ?_⟩
        intro y hy
        rcases List.mem_cons.1 hy with hy | hy
        · subst hy; exact le_of_lt hlt
        · exact hmem.2 y hy
      · rw [if_neg hlt] at h
        have he' : e = x := by
          cases h
          rfl
        subst he'
        refine ⟨List.mem_cons_self _ _, ?_⟩
        intro y hy
        rcases List.mem_cons.1 hy with hy | hy
        · subst hy; exact le_refl _
        · exact le_trans (not_lt.1 hlt) (hmem.2 y hy)

/-- Membership in an `insertDesc` result. -/
theorem mem_insertDesc {σ : Type} (p x : ℝ × BNode σ) :
    ∀ l, x ∈ insertDesc p l ↔ x = p ∨ x ∈ l := by
  intro l
  induction l with
  | nil => simp [insertDesc]
  | cons q qs ih =>
    by_cases hq : q.1 < p.1
    · simp [insertDesc, hq]
    · simp [insertDesc, hq, ih]
      tauto

/-- `insertDesc` preserves the head-dominates property. -/
theorem insertDesc_headMax {σ : Type} (p : ℝ × BNode σ) (l : List (ℝ × BNode σ))
    (hl : ∀ hd, l.head? = some hd → ∀ x ∈ l, x.1 ≤ hd.1) :
    ∀ hd, (insertDesc p l).head? = some hd → ∀ x ∈ insertDesc p l, x.1 ≤ hd.1 := by
  cases l with
  | nil =>
    intro hd hhd x hx
    simp [insertDesc] at hhd hx
    subst hhd; subst hx; exact le_refl _
  | cons q qs =>
    by_cases hq : q.1 < p.1
    · intro hd hhd x hx
      simp only [insertDesc, if_pos hq] at hhd hx
      simp only [List.head?] at hhd
      cases hhd
      rcases List.mem_cons.1 hx with hx | hx
      · subst hx; exact le_refl _
      · exact le_trans (hl q rfl x hx) (le_of_lt hq)
    · intro hd hhd x hx
      simp only [insertDesc, if_neg hq] at hhd hx
      simp only [List.head?] at hhd
      cases hhd
      rcases List.mem_cons.1 hx with hx | hx
      · subst hx; exact le_refl _
      · rcases (mem_insertDesc p x qs).1 hx with hx | hx
        · subst hx; exact not_lt.1 hq
        · exact hl q rfl x (List.mem_cons_of_mem _ hx)

/-- The fold driving `sortDesc`: membership, and the head dominating all
entries once the accumulator has that property. -/
theorem foldl_insertDesc_spec {σ : Type} :
    ∀ (l acc : List (ℝ × BNode σ)),
      (∀ x, x ∈ l.foldl (fun a p => insertDesc p a) acc ↔ x ∈ l ∨ x ∈ acc) ∧
      ((∀ hd, acc.head? = some hd → ∀ x ∈ acc, x.1 ≤ hd.1) →
        ∀ hd, (l.foldl (fun a p => insertDesc p a) acc).head? = some hd →
          ∀ x ∈ l.foldl (fun a p => insertDesc p a) acc, x.1 ≤ hd.1) := by
  intro l
  induction l with
  | nil =>
    intro acc
    constructor
    · intro x; simp
    · intro hacc; simpa using hacc
  | cons p l ih =>
    intro acc
    constructor
    · intro x
      rw [List.foldl_cons, (ih (insertDesc p acc)).1 x, mem_insertDesc]
      simp only [List.mem_cons]
      tauto
    · intro hacc
      rw [List.foldl_cons]
      exact (ih (insertDesc p acc)).2 (insertDesc_headMax p acc hacc)

/-- `sortDesc` of a non-empty list starts with an entry of maximal score
drawn from the list (the source's `sorted(..., reverse=True)[0]`). -/
theorem sortDesc_best {σ : Type} (l : List (ℝ × BNode σ)) (e : ℝ × BNode σ) (hl : e ∈ l) :
    ∃ sel rest, sortDesc l = sel :: rest ∧ sel ∈ l ∧ ∀ x ∈ l, x.1 ≤ sel.1 := by
  have hs := foldl_insertDesc_spec l ([] : List (ℝ × BNode σ))
  have hmem : ∀ x, x ∈ sortDesc l ↔ x ∈ l := by
    intro x
    rw [sortDesc, hs.1 x]
    simp
  have he : e ∈ sortDesc l := (hmem e).2 hl
  have hs2 : ∀ hd, (sortDesc l).head? = some hd → ∀ x ∈ sortDesc l, x.1 ≤ hd.1 := by
    intro hd hhd x hx
    exact hs.2 (by intro hd' hhd'; simp at hhd') hd hhd x hx
  cases hsd : sortDesc l with
  | nil => rw [hsd] at he; simp at he
  | cons sel rest =>
    refine ⟨sel, rest, rfl, (hmem sel).1 (by rw [hsd]; exact List.mem_cons_self _ _), ?_⟩
    intro x hx
    exact hs2 sel (by rw [hsd]; rfl) x ((hmem x).2 hx)

/-- Analysis of the (unreachable) finalization code of
`Generator.beam_search`: if the step loop from `init_nodes` were reached
and completed its `max_len` steps in state `st`, the item's output would
be the finalizer's choice with the start token dropped; with a non-empty
`end_nodes` the choice is a finished hypothesis of maximal score,
otherwise it is the least-scored (best) remaining frontier entry popped
as fallback.  The program never executes this code: every `beam_search`
call raises on the `get_nodes` lookup first. -/
theorem Generator.beam_search_finalization {σ : Type}
    (maxLen beamSize bos eos pad : Nat) (dec : Nat → σ → List ℚ × σ) (h : σ)
    (st : BeamState σ)
    (hrun : Generator.beamLoop dec beamSize pad eos maxLen 0
              (Generator.init_nodes beamSize bos h) = some st) :
    Generator.beamSearchAfterInit maxLen beamSize bos eos pad dec h
        = (Generator.beamFinish st).map (fun n => n.pred.drop 1) ∧
    (match st.endNodes with
     | [] => ∀ e r, popMin st.frontier = some (e, r) →
         (e ∈ st.frontier ∧ ∀ x ∈ st.frontier, e.1 ≤ x.1) ∧
           Generator.beamFinish st = some e.2
     | _ :: _ => ∃ sel, sel ∈ st.endNodes ∧ (∀ x ∈ st.endNodes, x.1 ≤ sel.1) ∧
         Generator.beamFinish st = some sel.2) := by
  constructor
  · unfold Generator.beamSearchAfterInit
    rw [hrun]
    rfl
  · cases hend : st.endNodes with
    | nil =>
      intro e r hpm
      refine ⟨popMin_spec _ e r hpm, ?_⟩
      unfold Generator.beamFinish
      rw [hend, hpm]
      rfl
    | cons e0 es =>
      obtain ⟨sel, rest, hsd, hmem, hmax⟩ :=
        sortDesc_best (e0 :: es) e0 (List.mem_cons_self _ _)
      refine ⟨sel, hend ▸ hmem, ?_, ?_⟩
      · intro x hx
        exact hmax x (hend ▸ hx)
      · unfold Generator.beamFinish
        rw [hend, hsd]
        rfl

/-- Concrete instance of `Generator.beam_search_finalization`: the
two-step, beam-width-1 run under `decEos` completes in state `c2St`,
whose `end_nodes` list is non-empty, and the lemma's conclusion holds
there. -/
theorem Generator.beam_search_finalization_witness :
    Generator.beamLoop decEos 1 2 1 2 0 (Generator.init_nodes 1 0 (0 : Nat)) = some c2St ∧
    c2St.endNodes.length = 1 ∧
    (Generator.beamSearchAfterInit 2 1 0 1 2 decEos 0
        = (Generator.beamFinish c2St).map (fun n => n.pred.drop 1) ∧
     (match c2St.endNodes with
      | [] => ∀ e r, popMin c2St.frontier = some (e, r) →
          (e ∈ c2St.frontier ∧ ∀ x ∈ c2St.frontier, e.1 ≤ x.1) ∧
            Generator.beamFinish c2St = some e.2
      | _ :: _ => ∃ sel, sel ∈ c2St.endNodes ∧ (∀ x ∈ c2St.endNodes, x.1 ≤ sel.1) ∧
          Generator.beamFinish c2St = some sel.2)) :=
  ⟨rfl, rfl, Generator.beam_search_finalization 2 1 0 1 2 decEos 0 c2St rfl⟩

/-- Claim C2, failing behaviour: the selection step is never reached.
Every call of the per-item `beam_search` body dies in its first
statement: `self.get_nodes(hiddens)` names a method the class does not
define (the initialiser is `init_nodes`), so an `AttributeError` is
raised before the step loop, for every input item, configuration and
decoder collaborator — in particular at the concrete C2 scenario input. -/
theorem Generator.beam_search_always_raises :
    (∀ (σ : Type) (maxLen beamSize bos eos pad : Nat) (dec : Nat → σ → List ℚ × σ) (h : σ),
      Generator.beamSearchItem maxLen beamSize bos eos pad dec h
        = Except.error PyErr.attributeError) ∧
    Generator.beamSearchItem 2 1 0 1 2 decEos 0 = Except.error PyErr.attributeError :=
  ⟨fun _ _ _ _ _ _ _ _ => rfl, rfl⟩

/-- Claim C8, failing behaviour: a line lowercasing to the sentinel
`"quit"` does end the session normally, but any other line makes the
session die with a `TypeError` from the broken `self.generate(input_seq)`
call (missing `search_method` argument; the body would also read the
unbound `input_tensor` and the missing `self.search_method`), so no
decoded text is ever printed. -/
theorem Generator.inference_crashes_on_decode :
    Generator.inference ["QUIT"] = ([], none) ∧
    Generator.inference ["hello"] = ([], some PyErr.typeError) ∧
    Generator.inference ["hello", "quit"] = ([], some PyErr.typeError) := by
  refine ⟨by decide, by decide, by decide⟩

/-- Claim C9: `Tester.evaluate` of a batch whose predictions are all
empty returns exactly `0` for every metric collaborator (the metric is
not consulted); for a batch with at least one non-empty prediction the
result is the metric's value on the predictions and singleton-wrapped
references, scaled by 100 (the metric is invoked). -/
theorem Tester.evaluate_spec (pred label : List String)
    (m : List String → List (List String) → ℝ) :
    (pred.all (fun s => s == "") = true → ∀ m', Tester.evaluate m' pred label = 0) ∧
    (pred.all (fun s => s == "") = false →
      Tester.evaluate m pred label = m pred (label.map (fun l => [l])) * 100) := by
  constructor
  · intro hall m'
    simp [Tester.evaluate, hall]
  · intro hne
    simp [Tester.evaluate, hne]

/-- Witness for `Tester.evaluate_spec`: an all-empty batch scores `0`
under any metric, and a non-empty batch returns the (constant `7`)
metric's value times 100. -/
theorem Tester.evaluate_spec_witness :
    (["", ""].all (fun s => s == "") = true) ∧
    (∀ m', Tester.evaluate m' ["", ""] ["a", "b"] = 0) ∧
    (["hi"].all (fun s => s == "") = false) ∧
    Tester.evaluate (fun _ _ => 7) ["hi"] ["a"] = 7 * 100 :=
  ⟨rfl, (Tester.evaluate_spec ["", ""] ["a", "b"] (fun _ _ => 0)).1 rfl,
   rfl, (Tester.evaluate_spec ["hi"] ["a"] (fun _ _ => 7)).2 rfl⟩

/-- `getD` after `set` at a different position. -/
theorem getD_set_ne (l : List Nat) :
    ∀ (t i v d : Nat), t ≠ i → (l.set t v).getD i d = l.getD i d := by
  induction l with
  | nil => intro t i v d _; rfl
  | cons a l ih =>
    intro t i v d hti
    cases t with
    | zero =>
      cases i with
      | zero => exact absurd rfl hti
      | succ j => simp [List.getD_cons_succ]
    | succ s =>
      cases i with
      | zero => simp [List.getD_cons_zero]
      | succ j =>
        simp only [List.set, List.getD_cons_succ]
        exact ih s j v d (fun hsj => hti (by rw [hsj]))

/-- `getD` after `set` at the written position. -/
theorem getD_set_self (l : List Nat) :
    ∀ (t v d : Nat), t < l.length → (l.set t v).getD t d = v := by
  induction l with
  | nil => intro t v d ht; simp at ht
  | cons a l ih =>
    intro t v d ht
    cases t with
    | zero => rfl
    | succ s =>
      simp only [List.set, List.getD_cons_succ]
      exact ih s v d (by simpa using ht)

/-- `getD` on `replicate` with the replicated element as default. -/
theorem getD_replicate (a : Nat) : ∀ (n i : Nat), (List.replicate n a).getD i a = a := by
  intro n
  induction n with
  | zero => intro i; rfl
  | succ n ih =>
    intro i
    cases i with
    | zero => rfl
    | succ j => simpa [List.replicate, List.getD_cons_succ] using ih j

/-- `getD` through `drop 1`. -/
theorem getD_drop_one (l : List Nat) (i d : Nat) :
    (l.drop 1).getD i d = l.getD (i + 1) d := by
  cases l with
  | nil => rfl
  | cons a l => simp [List.getD_cons_succ]

/-- Invariant of the greedy decoding loop: starting at position `t ≥ 1`
with the positions `[1, t)` filled with non-pad non-eos tokens and the
positions from `t` on still pad, and assuming the decoder's argmax is
never the pad id, the resulting buffer keeps its length, holds no pad
token at a position not preceded by an eos token, and is pad everywhere
strictly after an eos token. -/
theorem Generator.greedyGo_spec {σ : Type} (dec : Nat → σ → List ℚ × σ) (eos pad : Nat)
    (hpadH : ∀ tok s, argmaxIdx (dec tok s).1 ≠ pad) :
    ∀ (fuel t inp : Nat) (h : σ) (pred : List Nat),
      pred.length = t + fuel →
      1 ≤ t →
      (∀ i, 1 ≤ i → i < t → pred.getD i pad ≠ pad ∧ pred.getD i pad ≠ eos) →
      (∀ i, t ≤ i → pred.getD i pad = pad) →
      (Generator.greedyGo dec eos fuel t inp h pred).length = pred.length ∧
      (∀ i, 1 ≤ i → i < (Generator.greedyGo dec eos fuel t inp h pred).length →
        (∀ j, 1 ≤ j → j < i → (Generator.greedyGo dec eos fuel t inp h pred).getD j pad ≠ eos) →
        (Generator.greedyGo dec eos fuel t inp h pred).getD i pad ≠ pad) ∧
      (∀ i j, 1 ≤ j → j < i → (Generator.greedyGo dec eos fuel t inp h pred).getD j pad = eos →
        (Generator.greedyGo dec eos fuel t inp h pred).getD i pad = pad) := by
  intro fuel
  induction fuel with
  | zero =>
    intro t inp h pred hlen ht hpre hsuf
    refine ⟨rfl, ?_, ?_⟩
    · intro i h1 hilen _
      exact (hpre i h1 (by simpa [Generator.greedyGo, hlen] using hilen)).1
    · intro i j hj1 hji hjeos
      by_cases hjt : j < t
      · exact absurd hjeos (hpre j hj1 hjt).2
      · have hpj : pred.getD j pad = pad := hsuf j (le_of_not_lt hjt)
        have hpi : pred.getD i pad = pad := hsuf i (le_trans (le_of_not_lt hjt) (le_of_lt hji))
        simpa [Generator.greedyGo] using hpi
  | succ fuel ih =>
    intro t inp h pred hlen ht hpre hsuf
    have hlt : t < pred.length := by omega
    have htok : argmaxIdx (dec inp h).1 ≠ pad := hpadH inp h
    by_cases htokeos : argmaxIdx (dec inp h).1 = eos
    · -- the freshly written token is eos: the loop stops here
      have hres : Generator.greedyGo dec eos (fuel + 1) t inp h pred
          = pred.set t (argmaxIdx (dec inp h).1) := by
        simp [Generator.greedyGo, htokeos]
      rw [hres]
      refine ⟨by simp, ?_, ?_⟩
      · intro i h1 hilen hnoeos
        rcases lt_trichotomy i t with hit | hit | hit
        · rw [getD_set_ne pred t i _ pad (by omega)]
          exact (hpre i h1 hit).1
        · subst hit
          rw [getD_set_self pred i _ pad hlt]
          exact htok
        · exact absurd (by rw [getD_set_self pred t _ pad hlt]; exact htokeos)
            (hnoeos t ht hit)
      · intro i j hj1 hji hjeos
        rcases lt_trichotomy j t with hjt | hjt | hjt
        · rw [getD_set_ne pred t j _ pad (by omega)] at hjeos
          exact absurd hjeos (hpre j hj1 hjt).2
        · subst hjt
          rw [getD_set_ne pred j i _ pad (by omega)]
          exact hsuf i (by omega)
        · rw [getD_set_ne pred t j _ pad (by omega), hsuf j (le_of_lt hjt)] at hjeos
          rw [getD_set_ne pred t i _ pad (by omega)]
          exact hsuf i (by omega)
    · -- the token is not eos: the loop continues at t + 1
      have hres : Generator.greedyGo dec eos (fuel + 1) t inp h pred
          = Generator.greedyGo dec eos fuel (t + 1) (argmaxIdx (dec inp h).1) (dec inp h).2
              (pred.set t (argmaxIdx (dec inp h).1)) := by
        simp [Generator.greedyGo, htokeos]
      rw [hres]
      have hspec := ih (t + 1) (argmaxIdx (dec inp h).1) (dec inp h).2
        (pred.set t (argmaxIdx (dec inp h).1))
        (by rw [List.length_set]; omega) (by omega)
        (by
          intro i h1 hit
          rcases lt_trichotomy i t with hit' | hit' | hit'
          · rw [getD_set_ne pred t i _ pad (by omega)]
            exact hpre i h1 hit'
          · subst hit'
            rw [getD_set_self pred i _ pad hlt]
            exact ⟨htok, htokeos⟩
          · omega)
        (by
          intro i hit
          rw [getD_set_ne pred t i _ pad (by omega)]
          exact hsuf i (by omega))
      rw [List.length_set] at hspec
      exact hspec

/-- Claim C3 (amended): for every input and every decoder collaborator
whose argmax token is never the pad id, the greedy output has length
`max_len - 1` (hence at most `max_len - 1`), holds no pad token at any
position not strictly preceded by an eos token (no pad before the first
eos), and is pad everywhere strictly after an eos token (the loop stops
early at eos, or is forced to stop at `t = max_len - 1`); the output is
the buffer slice `[1, max_len)`. -/
theorem Generator.greedy_search_output_spec {σ : Type} (maxLen bos eos pad : Nat)
    (dec : Nat → σ → List ℚ × σ) (h : σ)
    (hml : 1 ≤ maxLen)
    (hpadH : ∀ tok s, argmaxIdx (dec tok s).1 ≠ pad) :
    (Generator.greedySearchItem maxLen bos eos pad dec h).length = maxLen - 1 ∧
    (∀ i, i < (Generator.greedySearchItem maxLen bos eos pad dec h).length →
      (∀ j, j < i → (Generator.greedySearchItem maxLen bos eos pad dec h).getD j pad ≠ eos) →
      (Generator.greedySearchItem maxLen bos eos pad dec h).getD i pad ≠ pad) ∧
    (∀ i j, j < i → (Generator.greedySearchItem maxLen bos eos pad dec h).getD j pad = eos →
      (Generator.greedySearchItem maxLen bos eos pad dec h).getD i pad = pad) := by
  have hspec := Generator.greedyGo_spec dec eos pad hpadH (maxLen - 1) 1 bos h
    (List.replicate maxLen pad)
    (by simp; omega) (le_refl 1)
    (by intro i h1 hi1; omega)
    (by intro i _; exact getD_replicate pad maxLen i)
  unfold Generator.greedySearchItem
  obtain ⟨hL, hNoPad, hAfterEos⟩ := hspec
  rw [List.length_replicate] at hL
  refine ⟨?_, ?_, ?_⟩
  · rw [List.length_drop, hL]
  · intro i hi hnoeos
    rw [getD_drop_one]
    refine hNoPad (i + 1) (by omega) ?_ ?_
    · rw [List.length_drop, hL] at hi
      omega
    · intro j hj1 hji
      have hj : j - 1 < i := by omega
      have := hnoeos (j - 1) hj
      rw [getD_drop_one] at this
      have hjeq : j - 1 + 1 = j := by omega
      rw [hjeq] at this
      exact this
  · intro i j hji hjeos
    rw [getD_drop_one] at hjeos ⊢
    exact hAfterEos (i + 1) (j + 1) (by omega) (by omega) hjeos

/-- Claim C3, counterexample to the claim as stated (quantified over
every decoder collaborator): under `decPadEos`, whose argmax is the pad
id at the first step, the output starts with a pad token strictly before
its first eos token. -/
theorem Generator.greedy_pad_before_eos_cex :
    (Generator.greedySearchItem 512 0 1 2 decPadEos 0).getD 0 2 = 2 ∧
    (Generator.greedySearchItem 512 0 1 2 decPadEos 0).getD 1 2 = 1 ∧
    ¬ (∀ i, i < (Generator.greedySearchItem 512 0 1 2 decPadEos 0).length →
        (∀ j, j < i → (Generator.greedySearchItem 512 0 1 2 decPadEos 0).getD j 2 ≠ 1) →
        (Generator.greedySearchItem 512 0 1 2 decPadEos 0).getD i 2 ≠ 2) :=
  ⟨by decide, by decide,
   fun hcl => hcl 0 (by decide) (fun j hj => absurd hj (Nat.not_lt_zero j)) (by decide)⟩

/-- Witness for `Generator.greedy_search_output_spec` at the concrete
run `maxLen = 3`, ids bos=0 eos=1 pad=2, decoder `decA`. -/
theorem Generator.greedy_search_output_spec_witness :
    (1 ≤ 3) ∧ (∀ tok s, argmaxIdx (decA tok s).1 ≠ 2) ∧
    ((Generator.greedySearchItem 3 0 1 2 decA 0).length = 3 - 1 ∧
     (∀ i, i < (Generator.greedySearchItem 3 0 1 2 decA 0).length →
       (∀ j, j < i → (Generator.greedySearchItem 3 0 1 2 decA 0).getD j 2 ≠ 1) →
       (Generator.greedySearchItem 3 0 1 2 decA 0).getD i 2 ≠ 2) ∧
     (∀ i j, j < i → (Generator.greedySearchItem 3 0 1 2 decA 0).getD j 2 = 1 →
       (Generator.greedySearchItem 3 0 1 2 decA 0).getD i 2 = 2)) := by
  have hpad : ∀ tok s, argmaxIdx (decA tok s).1 ≠ 2 := by
    intro tok s
    cases s with
    | zero =>
      have h0 : (decA tok 0).1 = [0, 0, 0, 1, 0] := rfl
      rw [h0]; decide
    | succ n =>
      have h1 : (decA tok (n + 1)).1 = [0, 1, 0, 0, 0] := rfl
      rw [h1]; decide
  exact ⟨by decide, hpad, Generator.greedy_search_output_spec 3 0 1 2 decA 0 (by decide) hpad⟩

/-- Shape and provenance of a `setCol` result for equal-length inputs. -/
theorem Tester.setCol_spec (t : Nat) :
    ∀ (m : List (List Nat)) (vals : List Nat), vals.length = m.length →
      (Tester.setCol t m vals).length = m.length ∧
      (∀ r ∈ Tester.setCol t m vals, ∃ row ∈ m, ∃ v ∈ vals, r = row.set t v) := by
  intro m
  induction m with
  | nil =>
    intro vals hv
    constructor
    · simp [Tester.setCol]
    · intro r hr
      simp [Tester.setCol] at hr
  | cons row m ih =>
    intro vals hv
    cases vals with
    | nil => simp at hv
    | cons v vals =>
      have hv' : vals.length = m.length := by simpa using hv
      have hcons : Tester.setCol t (row :: m) (v :: vals)
          = row.set t v :: Tester.setCol t m vals := rfl
      constructor
      · rw [hcons]
        simp [(ih vals hv').1]
      · intro r hr
        rw [hcons] at hr
        rcases List.mem_cons.1 hr with hr | hr
        · exact ⟨row, List.mem_cons_self _ _, v, List.mem_cons_self _ _, hr⟩
        · obtain ⟨row', hrow', v', hv'', hr'⟩ := (ih vals hv').2 r hr
          exact ⟨row', List.mem_cons_of_mem _ hrow', v', List.mem_cons_of_mem _ hv'', hr'⟩

/-- Invariant of the `Tester.predict` loop: the matrix keeps its batch
size, every row keeps length `max_len` and a bos head, and the loop
performs exactly `fuel` decoder invocations regardless of the produced
tokens (no early exit). -/
theorem Tester.predictLoop_spec {σ : Type} (decB : List Nat → σ → List (List ℚ) × σ)
    (bs maxLen pad bos : Nat)
    (hdec : ∀ ts s, ((decB ts s).1).length = ts.length) :
    ∀ (fuel t : Nat) (toks : List Nat) (h : σ) (m : List (List Nat)) (calls : Nat),
      1 ≤ t →
      toks.length = bs →
      m.length = bs →
      (∀ row ∈ m, row.length = maxLen ∧ row.getD 0 pad = bos) →
      (Tester.predictLoop decB fuel t toks h m calls).1.length = bs ∧
      (∀ row ∈ (Tester.predictLoop decB fuel t toks h m calls).1,
        row.length = maxLen ∧ row.getD 0 pad = bos) ∧
      (Tester.predictLoop decB fuel t toks h m calls).2 = calls + fuel := by
  intro fuel
  induction fuel with
  | zero =>
    intro t toks h m calls _ _ hm hrows
    exact ⟨hm, hrows, rfl⟩
  | succ fuel ih =>
    intro t toks h m calls ht htoks hm hrows
    have hres : Tester.predictLoop decB (fuel + 1) t toks h m calls
        = Tester.predictLoop decB fuel (t + 1) ((decB toks h).1.map argmaxIdx) (decB toks h).2
            (Tester.setCol t m ((decB toks h).1.map argmaxIdx)) (calls + 1) := rfl
    rw [hres]
    have htoks' : ((decB toks h).1.map argmaxIdx).length = bs := by
      rw [List.length_map, hdec, htoks]
    have hsc := Tester.setCol_spec t m ((decB toks h).1.map argmaxIdx) (by rw [htoks', hm])
    have hspec := ih (t + 1) ((decB toks h).1.map argmaxIdx) (decB toks h).2
      (Tester.setCol t m ((decB toks h).1.map argmaxIdx)) (calls + 1)
      (by omega) htoks' (by rw [hsc.1, hm])
      (by
        intro r hr
        obtain ⟨row, hrow, v, _, hrv⟩ := hsc.2 r hr
        obtain ⟨hrl, hrh⟩ := hrows row hrow
        subst hrv
        constructor
        · simp [hrl]
        · rw [getD_set_ne row t 0 v pad (by omega)]
          exact hrh)
    refine ⟨hspec.1, hspec.2.1, ?_⟩
    rw [hspec.2.2]
    omega

/-- Claim C10: for every batch, `Tester.predict` returns a
`(batch_size, max_len)` matrix whose column 0 is entirely the
start-of-sequence id, and it always performs exactly `max_len - 1`
decoder steps, never terminating early when an eos token is produced. -/
theorem Tester.predict_spec {σ : Type} (maxLen bos pad batchSize : Nat)
    (decB : List Nat → σ → List (List ℚ) × σ) (h : σ)
    (hml : 1 ≤ maxLen)
    (hdec : ∀ ts s, ((decB ts s).1).length = ts.length) :
    (Tester.predict maxLen bos pad decB batchSize h).1.length = batchSize ∧
    (∀ row ∈ (Tester.predict maxLen bos pad decB batchSize h).1,
      row.length = maxLen ∧ row.getD 0 pad = bos) ∧
    (Tester.predict maxLen bos pad decB batchSize h).2 = maxLen - 1 := by
  have hsc := Tester.setCol_spec 0 (List.replicate batchSize (List.replicate maxLen pad))
    (List.replicate batchSize bos) (by simp)
  have hinit : ∀ row ∈ Tester.setCol 0 (List.replicate batchSize (List.replicate maxLen pad))
      (List.replicate batchSize bos), row.length = maxLen ∧ row.getD 0 pad = bos := by
    intro r hr
    obtain ⟨row, hrow, v, hv, hrv⟩ := hsc.2 r hr
    have hrow' : row = List.replicate maxLen pad := List.eq_of_mem_replicate hrow
    have hv' : v = bos := List.eq_of_mem_replicate hv
    rw [hrv, hrow', hv']
    constructor
    · simp
    · exact getD_set_self (List.replicate maxLen pad) 0 bos pad (by simpa using hml)
  have hspec := Tester.predictLoop_spec decB batchSize maxLen pad bos hdec
    (maxLen - 1) 1 (List.replicate batchSize bos) h
    (Tester.setCol 0 (List.replicate batchSize (List.replicate maxLen pad))
      (List.replicate batchSize bos)) 0
    (le_refl 1) (by simp) (by rw [hsc.1]; simp) hinit
  refine ⟨hspec.1, hspec.2.1, ?_⟩
  have h2 : (Tester.predict maxLen bos pad decB batchSize h).2 = 0 + (maxLen - 1) := hspec.2.2
  omega

/-- Witness for `Tester.predict_spec`: a concrete batch of size 2 with
`max_len = 3` under the `decBatch` collaborator. -/
theorem Tester.predict_spec_witness :
    (1 ≤ 3) ∧ (∀ ts s, ((decBatch ts s).1).length = ts.length) ∧
    ((Tester.predict 3 0 2 decBatch 2 ()).1.length = 2 ∧
     (∀ row ∈ (Tester.predict 3 0 2 decBatch 2 ()).1,
       row.length = 3 ∧ row.getD 0 2 = 0) ∧
     (Tester.predict 3 0 2 decBatch 2 ()).2 = 3 - 1) := by
  have hdec : ∀ ts s, ((decBatch ts s).1).length = ts.length := by
    intro ts s
    simp [decBatch]
  exact ⟨by decide, hdec, Tester.predict_spec 3 0 2 2 decBatch () (by decide) hdec⟩

/-- `pyGroupby` on a cons cell is the span characterisation: the first
group is the leading run of the head value, the rest is `pyGroupby` of
what remains (the semantics of `itertools.groupby`). -/
theorem pyGroupby_cons : ∀ (l : List Nat) (a : Nat),
    pyGroupby (a :: l)
      = (a :: l.takeWhile (fun x => x == a)) :: pyGroupby (l.dropWhile (fun x => x == a)) := by
  intro l
  induction l with
  | nil => intro a; rfl
  | cons b l ih =>
    intro a
    by_cases hab : a = b
    · subst hab
      rw [List.takeWhile_cons_of_pos (by simp), List.dropWhile_cons_of_pos (by simp)]
      rw [pyGroupby, ih a]
      simp
    · have hba : (b == a) = false := beq_eq_false_iff_ne.2 (Ne.symm hab)
      rw [List.takeWhile_cons_of_neg (by simp [hba]), List.dropWhile_cons_of_neg (by simp [hba])]
      rw [pyGroupby, ih b]
      simp [hab]

/-- Elements of `takeWhile (· == a)` equal `a`. -/
theorem takeWhile_eq_of_mem (l : List Nat) (a x : Nat)
    (hx : x ∈ l.takeWhile (fun y => y == a)) : x = a := by
  have := List.mem_takeWhile_imp hx
  simpa using this

/-- `countP (· != pad)` on a constant list. -/
theorem countP_const : ∀ (u : List Nat) (a pad : Nat), (∀ x ∈ u, x = a) →
    u.countP (fun t => t != pad) = if a = pad then 0 else u.length := by
  intro u
  induction u with
  | nil =>
    intro a pad _
    by_cases hap : a = pad <;> simp [hap]
  | cons b u ih =>
    intro a pad h
    have hb : b = a := h b (List.mem_cons_self _ _)
    have hu := ih a pad (fun x hx => h x (List.mem_cons_of_mem _ hx))
    by_cases hap : a = pad
    · rw [List.countP_cons, hu, if_pos hap, hb, hap]
      simp
    · simp [List.countP_cons, hu, hb, hap]

/-- A constant list is a `replicate`. -/
theorem const_eq_replicate : ∀ (u : List Nat) (a : Nat), (∀ x ∈ u, x = a) →
    u = List.replicate u.length a := by
  intro u
  induction u with
  | nil => intro a _; rfl
  | cons b u ih =>
    intro a h
    have hb : b = a := h b (List.mem_cons_self _ _)
    have := ih a (fun x hx => h x (List.mem_cons_of_mem _ hx))
    simp [List.replicate, hb]
    exact this

/-- `pyMaxRun` on a cons cell splits over the leading run. -/
theorem pyMaxRun_cons (pad a : Nat) (l : List Nat) :
    pyMaxRun pad (a :: l)
      = max ((a :: l.takeWhile (fun x => x == a)).countP (fun t => t != pad))
          (pyMaxRun pad (l.dropWhile (fun x => x == a))) := by
  unfold pyMaxRun
  rw [pyGroupby_cons]
  rfl

/-- A `replicate k a` that starts a list is bounded by the leading
`takeWhile (· == a)`. -/
theorem replicate_append_takeWhile : ∀ (k a : Nat) (r l : List Nat),
    List.replicate k a ++ r = l → k ≤ (l.takeWhile (fun x => x == a)).length := by
  intro k
  induction k with
  | zero => intro a r l _; exact Nat.zero_le _
  | succ k ih =>
    intro a r l h
    subst h
    rw [List.replicate_succ, List.cons_append, List.takeWhile_cons_of_pos (by simp)]
    simpa using ih a r _ rfl

/-- `pyMaxRun` never decreases when a token is prepended. -/
theorem pyMaxRun_cons_mono (pad a : Nat) : ∀ (l : List Nat),
    pyMaxRun pad l ≤ pyMaxRun pad (a :: l) := by
  intro l
  cases l with
  | nil => exact Nat.zero_le _
  | cons b l =>
    by_cases hab : a = b
    · subst hab
      rw [pyMaxRun_cons pad a (a :: l), pyMaxRun_cons pad a l,
        List.takeWhile_cons_of_pos (by simp), List.dropWhile_cons_of_pos (by simp)]
      refine max_le_max ?_ (le_refl _)
      simp only [List.countP_cons]
      omega
    · have hba : (b == a) = false := beq_eq_false_iff_ne.2 (Ne.symm hab)
      rw [pyMaxRun_cons pad a (b :: l), List.dropWhile_cons_of_neg (by simp [hba])]
      exact le_max_right _ _

/-- Case split for a slice of a cons cell: it is a front slice or a
slice of the tail. -/
theorem occursIn_cons_elim {u l : List Nat} {a : Nat} (h : occursIn u (a :: l)) :
    (∃ r, u ++ r = a :: l) ∨ occursIn u l := by
  obtain ⟨s, r, hs⟩ := h
  cases s with
  | nil => exact Or.inl ⟨r, by simpa using hs⟩
  | cons x s' =>
    right
    rw [List.cons_append, List.cons_append] at hs
    injection hs with h1 h2
    exact ⟨s', r, h2⟩

/-- A slice of the tail is a slice of the whole list. -/
theorem occursIn_cons_of {u l : List Nat} (a : Nat) (h : occursIn u l) :
    occursIn u (a :: l) := by
  obtain ⟨s, r, hs⟩ := h
  exact ⟨a :: s, r, by simp [List.cons_append, hs]⟩

/-- A slice of `dropWhile p l` is a slice of `l`. -/
theorem occursIn_dropWhile (p : Nat → Bool) {u l : List Nat}
    (h : occursIn u (l.dropWhile p)) : occursIn u l := by
  obtain ⟨s, r, hs⟩ := h
  refine ⟨l.takeWhile p ++ s, r, ?_⟩
  calc l.takeWhile p ++ s ++ u ++ r = l.takeWhile p ++ (s ++ u ++ r) := by
        simp [List.append_assoc]
    _ = l.takeWhile p ++ l.dropWhile p := by rw [hs]
    _ = l := List.takeWhile_append_dropWhile ..

/-- Soundness half of the claim-C1 run characterisation: any run of `k`
consecutive identical non-pad tokens is bounded by the source's
groupby-based `repeat` value. -/
theorem occursIn_replicate_le (pad : Nat) : ∀ (l : List Nat) (k t : Nat), t ≠ pad →
    occursIn (List.replicate k t) l → k ≤ pyMaxRun pad l := by
  intro l
  induction l with
  | nil =>
    intro k t _ h
    obtain ⟨s, r, hs⟩ := h
    have := congrArg List.length hs
    simp at this
    omega
  | cons a l ih =>
    intro k t ht h
    rcases occursIn_cons_elim h with ⟨r, hr⟩ | h'
    · cases k with
      | zero => exact Nat.zero_le _
      | succ k' =>
        rw [List.replicate_succ, List.cons_append] at hr
        injection hr with hta hta2
        subst hta
        have hk' : k' ≤ (l.takeWhile (fun x => x == t)).length :=
          replicate_append_takeWhile k' t r l hta2
        rw [pyMaxRun_cons]
        refine le_trans ?_ (le_max_left _ _)
        have hconst : ∀ x ∈ t :: l.takeWhile (fun y => y == t), x = t := by
          intro x hx
          rcases List.mem_cons.1 hx with hx | hx
          · exact hx
          · exact takeWhile_eq_of_mem l t x hx
        rw [countP_const _ t pad hconst, if_neg ht]
        simp only [List.length_cons]
        omega
    · exact le_trans (ih k t ht h') (pyMaxRun_cons_mono pad a l)

/-- `dropWhile` never lengthens a list. -/
theorem length_dropWhile_le' (p : Nat → Bool) : ∀ (l : List Nat),
    (l.dropWhile p).length ≤ l.length := by
  intro l
  induction l with
  | nil => simp
  | cons a l ih =>
    by_cases hp : p a
    · rw [List.dropWhile_cons_of_pos hp]
      simp only [List.length_cons]
      omega
    · rw [List.dropWhile_cons_of_neg hp]

/-- Completeness half of the claim-C1 run characterisation: the source's
groupby-based `repeat` value is itself realised by a run of consecutive
identical non-pad tokens (or is `0`). -/
theorem pyMaxRun_hasRun_aux (pad : Nat) : ∀ (n : Nat) (l : List Nat), l.length ≤ n →
    hasRun pad l (pyMaxRun pad l) := by
  intro n
  induction n with
  | zero =>
    intro l hl
    have hnil : l = [] := List.length_eq_zero.1 (Nat.le_zero.1 hl)
    subst hnil
    exact Or.inl rfl
  | succ n ih =>
    intro l hl
    cases l with
    | nil => exact Or.inl rfl
    | cons a l' =>
      rw [pyMaxRun_cons]
      have hdwlen : (l'.dropWhile (fun x => x == a)).length ≤ n := by
        have h1 := length_dropWhile_le' (fun x => x == a) l'
        have h2 : l'.length + 1 ≤ n + 1 := by simpa using hl
        omega
      have hdwrun := ih (l'.dropWhile (fun x => x == a)) hdwlen
      have hconst : ∀ x ∈ a :: l'.takeWhile (fun y => y == a), x = a := by
        intro x hx
        rcases List.mem_cons.1 hx with hx | hx
        · exact hx
        · exact takeWhile_eq_of_mem l' a x hx
      by_cases hap : a = pad
      · rw [countP_const _ a pad hconst, if_pos hap, Nat.zero_max]
        rcases hdwrun with h0 | ⟨t, htp, hocc⟩
        · exact Or.inl h0
        · exact Or.inr ⟨t, htp, occursIn_cons_of a (occursIn_dropWhile _ hocc)⟩
      · rw [countP_const _ a pad hconst, if_neg hap]
        rcases le_total (pyMaxRun pad (l'.dropWhile (fun x => x == a)))
            ((a :: l'.takeWhile (fun y => y == a)).length) with hle | hle
        · rw [Nat.max_eq_left hle]
          refine Or.inr ⟨a, hap, [], l'.dropWhile (fun x => x == a), ?_⟩
          rw [← const_eq_replicate _ a hconst]
          simp only [List.nil_append, List.cons_append]
          rw [List.takeWhile_append_dropWhile]
        · rw [Nat.max_eq_right hle]
          rcases hdwrun with h0 | ⟨t, htp, hocc⟩
          · exact Or.inl h0
          · exact Or.inr ⟨t, htp, occursIn_cons_of a (occursIn_dropWhile _ hocc)⟩

/-- `hasRun` bound in terms of `pyMaxRun`. -/
theorem hasRun_le_pyMaxRun (pad : Nat) (l : List Nat) (k : Nat) (h : hasRun pad l k) :
    k ≤ pyMaxRun pad l := by
  rcases h with h0 | ⟨t, ht, hocc⟩
  · omega
  · exact occursIn_replicate_le pad l k t ht hocc

/-- Claim C1, failing behaviour: the repeat penalty of
`Generator.get_score` never fires.  Because `node.pred` is a `(1, L)`
tensor, `groupby(node.pred.tolist())` runs over the nested `[[tokens]]`
list: the single group's sole element is the inner list, the filter
compares that list with the int `pad_id` (always unequal in Python), and
`repeat` evaluates to `1` on every call — so for every node the score is
the bare length-normalised log-prob, with no `0.5` factor (a zero
`log_prob` short-circuits to `0`, which the same formula yields).  At
the concrete node `c1Node` the spec-intended maximum run of consecutive
identical non-pad tokens is `6 > max_repeat = 5` (it is realised by a
run and bounds every run), yet the program computes `repeat = 1` and
returns the unhalved score, contradicting the claimed penalty. -/
theorem Generator.get_score_repeat_penalty_dead :
    (∀ (σ : Type) (pad : Nat) (node : BNode σ),
      Generator.get_score pad 5 5 1.2 node
        = node.logProb / ((((node.length : ℝ) + 5) / (1 + 5)) ^ (1.2 : ℝ))) ∧
    pyRepeat 2 [c1Node.pred] = 1 ∧
    pyMaxRun 2 c1Node.pred = 6 ∧
    hasRun 2 c1Node.pred 6 ∧
    (∀ k, hasRun 2 c1Node.pred k → k ≤ 6) ∧
    Generator.get_score 2 5 5 1.2 c1Node
      = c1Node.logProb / ((((c1Node.length : ℝ) + 5) / (1 + 5)) ^ (1.2 : ℝ)) := by
  have hgen : ∀ (σ : Type) (pad : Nat) (node : BNode σ),
      Generator.get_score pad 5 5 1.2 node
        = node.logProb / ((((node.length : ℝ) + 5) / (1 + 5)) ^ (1.2 : ℝ)) := by
    intro σ pad node
    unfold Generator.get_score
    by_cases h0 : node.logProb = 0
    · rw [if_pos h0, h0, zero_div]
    · rw [if_neg h0]
      have hrpt : pyRepeat pad [node.pred] = 1 := rfl
      norm_num [hrpt]
  refine ⟨hgen, rfl, rfl, Or.inr ⟨3, by decide, [0], [], by decide⟩, ?_, hgen Unit 2 c1Node⟩
  intro k hk
  have hle := hasRun_le_pyMaxRun 2 c1Node.pred k hk
  have h6 : pyMaxRun 2 c1Node.pred = 6 := rfl
  omega
